import Mathlib

/-!
Verification of the studynet counselor backend retrieval pipeline.

Shallow embedding notes: Python strings are modeled as lists of ASCII
codepoints (`PyStr`), so Python string methods (upper, lower, strip, split,
replace, in, endswith) become executable functions on `List Nat`.  Python
`isalnum` is modeled for the ASCII range.  External collaborators (the
embedding service, the chat LLM, the pandasql backend, file reads) are
modeled as explicit function parameters; fallible calls return
`Except`/`Option` values.  Scores are rationals.
-/

namespace Studynet

/-- A Python string, as its list of ASCII codepoints. -/
abbrev PyStr := List Nat

/-- Codepoints of a Lean string literal (used for concrete inputs). -/
def toCodes (s : String) : PyStr := s.toList.map Char.toNat

/-- Python `str.isspace` characters used by default `strip`. -/
def isSpaceCode (n : Nat) : Bool :=
  n == 32 || n == 9 || n == 10 || n == 13 || n == 11 || n == 12

/-- Python `str.strip()` with no arguments. -/
def pyStrip (s : PyStr) : PyStr :=
  ((s.dropWhile isSpaceCode).reverse.dropWhile isSpaceCode).reverse

/-- Python `str.upper` on one ASCII codepoint. -/
def pyUpperChar (n : Nat) : Nat := if 97 ≤ n ∧ n ≤ 122 then n - 32 else n

/-- Python `str.lower` on one ASCII codepoint. -/
def pyLowerChar (n : Nat) : Nat := if 65 ≤ n ∧ n ≤ 90 then n + 32 else n

/-- Python `str.upper`. -/
def pyUpper (s : PyStr) : PyStr := s.map pyUpperChar

/-- Python `str.lower`. -/
def pyLower (s : PyStr) : PyStr := s.map pyLowerChar

/-- Python substring containment `needle in hay`. -/
def containsSub (needle : PyStr) : PyStr → Bool
  | [] => needle.isEmpty
  | c :: t => needle.isPrefixOf (c :: t) || containsSub needle t

/-- Python `str.rstrip(c)` for a single strip character. -/
def rstripChar (c : Nat) (s : PyStr) : PyStr :=
  (s.reverse.dropWhile (· == c)).reverse

/-- Python `str.lstrip(chars)`. -/
def lstripSet (cs : PyStr) (s : PyStr) : PyStr := s.dropWhile (cs.contains ·)

/-- Python `str.strip(chars)`. -/
def stripSet (cs : PyStr) (s : PyStr) : PyStr :=
  ((s.dropWhile (cs.contains ·)).reverse.dropWhile (cs.contains ·)).reverse

/-- Python `str.endswith(c)` for a one-character suffix. -/
def endsWithCode (c : Nat) (s : PyStr) : Bool := s.getLast? == some c

/-- Python `str.split(sep)` for a one-character separator (keeps empties). -/
def splitOnCode (sep : Nat) : PyStr → List PyStr
  | [] => [[]]
  | c :: t =>
    match splitOnCode sep t with
    | [] => [[]]
    | h :: hs => if c == sep then [] :: h :: hs else (c :: h) :: hs

/-- `sep.join parts` for a one-character separator. -/
def joinWith (sep : Nat) : List PyStr → PyStr
  | [] => []
  | [p] => p
  | p :: ps => p ++ sep :: joinWith sep ps

/-- Helper for Python whitespace `str.split()` (drops empties). -/
def splitWsAux : PyStr → PyStr → List PyStr
  | [], cur => if cur.isEmpty then [] else [cur.reverse]
  | c :: t, cur =>
    if isSpaceCode c then
      if cur.isEmpty then splitWsAux t [] else cur.reverse :: splitWsAux t []
    else splitWsAux t (c :: cur)

/-- Python `str.split()` with no arguments. -/
def pySplitWs (s : PyStr) : List PyStr := splitWsAux s []

/-- Codepoints of `str(n)` for a natural number. -/
def natCodes (n : Nat) : PyStr := toCodes (toString n)

/-- Python last-500-characters slice `s[-500:]`, generalized. -/
def lastChars (n : Nat) (s : PyStr) : PyStr := s.drop (s.length - n)

/-- ASCII digit test (Python `str.isdigit` restricted to ASCII). -/
def isDigitCode (n : Nat) : Bool := 48 ≤ n && n ≤ 57

/-- ASCII alphanumeric test (Python `str.isalnum` restricted to ASCII). -/
def isAlnumCode (n : Nat) : Bool :=
  (97 ≤ n && n ≤ 122) || (65 ≤ n && n ≤ 90) || isDigitCode n

/-! ## SQL engine (`src/api/sql_engine.py`) -/

/-- Removal of every occurrence of the lowercase extension text, i.e. the
codepoints 46,99,115,118, scanning left to right as Python `str.replace`
with an empty replacement does. -/
def dropCsvLower : PyStr → PyStr
  | 46 :: 99 :: 115 :: 118 :: t => dropCsvLower t
  | c :: t => c :: dropCsvLower t
  | [] => []

/-- `name.replace(".CSV", "")`: codepoints 46,67,83,86. -/
def dropCsvUpper : PyStr → PyStr
  | 46 :: 67 :: 83 :: 86 :: t => dropCsvUpper t
  | c :: t => c :: dropCsvUpper t
  | [] => []

/-- First steps of `SQLEngine._sanitize_table_name`: remove `.csv`/`.CSV`,
map non-alphanumeric characters to underscore (95), then
`name.lstrip(digits and underscore)`. -/
def sanitizeStripped (filename : PyStr) : PyStr :=
  ((dropCsvUpper (dropCsvLower filename)).map
      (fun c => if isAlnumCode c then c else 95)).dropWhile
    (fun c => isDigitCode c || c == 95)

/-- The underscore-run collapse of the source,
`join of the non-empty pieces of name.split on underscore`. -/
def sanitizeCore (filename : PyStr) : PyStr :=
  joinWith 95 ((splitOnCode 95 (sanitizeStripped filename)).filter
    (fun p => !p.isEmpty))

/-- `SQLEngine._sanitize_table_name`, line by line from the source:
remove `.csv`/`.CSV`, map non-alphanumeric characters to underscore,
strip leading digits and underscores, collapse underscore runs, guard a
leading digit, lowercase, defaulting to `unnamed_table` when empty. -/
def sanitize_table_name (filename : PyStr) : PyStr :=
  let n3 := sanitizeCore filename
  let n4 := match n3 with
    | [] => n3
    | c :: _ => if isDigitCode c then toCodes "table_" ++ n3 else n3
  if n4.isEmpty then toCodes "unnamed_table" else pyLower n4

/-- Checker for the spec properties of a derived table name: non-empty,
only alphanumerics and underscores, no ASCII uppercase letter, no repeated
underscore run, and no leading digit. -/
def noRepeatUnderscore : PyStr → Bool
  | [] => true
  | [_] => true
  | a :: b :: t => !(a == 95 && b == 95) && noRepeatUnderscore (b :: t)

def validTableName (s : PyStr) : Bool :=
  !s.isEmpty && s.all (fun c => isAlnumCode c || c == 95) &&
    s.all (fun c => !(65 ≤ c && c ≤ 90)) && noRepeatUnderscore s &&
    !(isDigitCode (s.headD 0))

end Studynet


namespace Studynet

theorem mem_of_mem_dropWhile (p : Nat → Bool) (c : Nat) :
    (l : PyStr) → c ∈ l.dropWhile p → c ∈ l :=
  fun _ h => (List.dropWhile_sublist p).subset h

theorem pred_false_of_dropWhile_cons (p : Nat → Bool) (c : Nat) :
    (l t : PyStr) → l.dropWhile p = c :: t → p c = false
  | [], t, h => by simp [List.dropWhile] at h
  | a :: s, t, h => by
    by_cases hp : p a
    · simp only [List.dropWhile, hp] at h
      exact pred_false_of_dropWhile_cons p c s t h
    · simp only [List.dropWhile, hp, Bool.false_eq_true, if_false] at h
      injection h with h1 _
      rw [← h1]; simpa using hp

theorem splitOnCode_ne_nil (sep : Nat) : (s : PyStr) → splitOnCode sep s ≠ []
  | [] => by simp [splitOnCode]
  | c :: t => by
    simp only [splitOnCode]
    rcases hq : splitOnCode sep t with _ | ⟨q, qs⟩
    · simp
    · by_cases hc : (c == sep) = true <;> simp [hc]

theorem mem_splitOnCode (sep c : Nat) :
    (s : PyStr) → (p : PyStr) → p ∈ splitOnCode sep s → c ∈ p → c ∈ s ∧ c ≠ sep
  | [], p, hp, hc => by
    simp [splitOnCode] at hp; subst hp; simp at hc
  | a :: t, p, hp, hc => by
    simp only [splitOnCode] at hp
    match h : splitOnCode sep t with
    | [] => exact absurd h (splitOnCode_ne_nil sep t)
    | q :: qs =>
      rw [h] at hp
      by_cases ha : a = sep
      · simp only [ha, beq_self_eq_true, if_true] at hp
        rcases List.mem_cons.mp hp with h1 | h1
        · subst h1; simp at hc
        · have := mem_splitOnCode sep c t p (by rw [h]; exact h1) hc
          exact ⟨List.mem_cons_of_mem a this.1, this.2⟩
      · simp only [beq_iff_eq, ha, if_false] at hp
        rcases List.mem_cons.mp hp with h1 | h1
        · subst h1
          rcases List.mem_cons.mp hc with h2 | h2
          · subst h2; exact ⟨List.mem_cons_self _ _, ha⟩
          · have := mem_splitOnCode sep c t q (by rw [h]; exact List.mem_cons_self q qs) h2
            exact ⟨List.mem_cons_of_mem a this.1, this.2⟩
        · have := mem_splitOnCode sep c t p (by rw [h]; exact List.mem_cons_of_mem q h1) hc
          exact ⟨List.mem_cons_of_mem a this.1, this.2⟩

theorem joinWith_cons (sep : Nat) (q : PyStr) (ps : List PyStr) :
    joinWith sep (q :: ps) =
      q ++ (match ps with | [] => [] | _ :: _ => sep :: joinWith sep ps) := by
  match ps with
  | [] => simp [joinWith]
  | r :: rs => rfl

theorem mem_joinWith (sep c : Nat) :
    (parts : List PyStr) → c ∈ joinWith sep parts → c = sep ∨ ∃ p ∈ parts, c ∈ p
  | [], h => by simp [joinWith] at h
  | [p], h => by
    simp only [joinWith] at h
    exact Or.inr ⟨p, List.mem_cons_self _ _, h⟩
  | p :: q :: ps, h => by
    simp only [joinWith, List.mem_append, List.mem_cons] at h
    rcases h with h1 | h1 | h1
    · exact Or.inr ⟨p, List.mem_cons_self _ _, h1⟩
    · exact Or.inl h1
    · rcases mem_joinWith sep c (q :: ps) h1 with h2 | ⟨r, hr, hcr⟩
      · exact Or.inl h2
      · exact Or.inr ⟨r, List.mem_cons_of_mem p hr, hcr⟩

theorem noRepeat_cons_of_ne (c : Nat) (hc : c ≠ 95) (l : PyStr)
    (h : noRepeatUnderscore l = true) : noRepeatUnderscore (c :: l) = true := by
  match l with
  | [] => rfl
  | b :: t =>
    simp only [noRepeatUnderscore, Bool.and_eq_true, Bool.not_eq_true']
    refine ⟨?_, h⟩
    simp [hc]

theorem noRepeat_append_left (p r : PyStr) (hp : ∀ c ∈ p, c ≠ 95)
    (hr : noRepeatUnderscore r = true) : noRepeatUnderscore (p ++ r) = true := by
  induction p with
  | nil => simpa using hr
  | cons a t ih =>
    have ht : noRepeatUnderscore (t ++ r) = true :=
      ih (fun c hc => hp c (List.mem_cons_of_mem a hc))
    exact noRepeat_cons_of_ne a (hp a (List.mem_cons_self a t)) (t ++ r) ht

theorem noRepeat_underscore_cons (l : PyStr)
    (hl : noRepeatUnderscore l = true)
    (hh : ∀ c t, l = c :: t → c ≠ 95) : noRepeatUnderscore (95 :: l) = true := by
  match l with
  | [] => rfl
  | b :: t =>
    simp only [noRepeatUnderscore, Bool.and_eq_true, Bool.not_eq_true']
    exact ⟨by simp [hh b t rfl], hl⟩

theorem joinWith_head_ne_95 (q : PyStr) (ps : List PyStr)
    (hq : q ≠ []) (hfree : ∀ c ∈ q, c ≠ 95) :
    ∀ c t, joinWith 95 (q :: ps) = c :: t → c ≠ 95 := by
  intro c t h
  rw [joinWith_cons] at h
  match q with
  | [] => exact absurd rfl hq
  | a :: s =>
    simp only [List.cons_append, List.cons.injEq] at h
    rw [← h.1]
    exact hfree a (List.mem_cons_self a s)

theorem noRepeat_joinWith :
    (parts : List PyStr) →
    (∀ p ∈ parts, p ≠ [] ∧ ∀ c ∈ p, c ≠ 95) →
    noRepeatUnderscore (joinWith 95 parts) = true
  | [], _ => rfl
  | [p], h => by
    have := noRepeat_append_left p [] (h p (List.mem_cons_self _ _)).2 rfl
    simpa using this
  | p :: q :: ps, h => by
    have hp := h p (List.mem_cons_self _ _)
    have hq := h q (List.mem_cons_of_mem p (List.mem_cons_self _ _))
    have hrest : noRepeatUnderscore (joinWith 95 (q :: ps)) = true :=
      noRepeat_joinWith (q :: ps) (fun r hr => h r (List.mem_cons_of_mem p hr))
    have hmid : noRepeatUnderscore (95 :: joinWith 95 (q :: ps)) = true :=
      noRepeat_underscore_cons _ hrest (joinWith_head_ne_95 q ps hq.1 hq.2)
    simpa [joinWith] using noRepeat_append_left p _ hp.2 hmid

end Studynet

namespace Studynet

theorem pyLowerChar_not_upper (n : Nat) :
    (!(65 ≤ pyLowerChar n && pyLowerChar n ≤ 90)) = true := by
  simp only [pyLowerChar]
  split
  all_goals simp
  all_goals omega

theorem pyLowerChar_alnum (n : Nat) (h : (isAlnumCode n || n == 95) = true) :
    (isAlnumCode (pyLowerChar n) || pyLowerChar n == 95) = true := by
  simp only [isAlnumCode, isDigitCode, pyLowerChar] at *
  split
  all_goals simp_all
  all_goals omega

theorem pyLowerChar_not_digit (n : Nat) (h : isDigitCode n = false) :
    isDigitCode (pyLowerChar n) = false := by
  simp only [isDigitCode, pyLowerChar] at *
  split
  all_goals simp_all
  all_goals omega

theorem pyLowerChar_eq_95 (n : Nat) : (pyLowerChar n == 95) = (n == 95) := by
  simp only [pyLowerChar]
  split
  all_goals simp
  all_goals omega

theorem noRepeat_map_pyLower :
    (l : PyStr) → noRepeatUnderscore (l.map pyLowerChar) = noRepeatUnderscore l
  | [] => rfl
  | [_] => rfl
  | a :: b :: t => by
    have ih := noRepeat_map_pyLower (b :: t)
    simp only [List.map_cons] at ih ⊢
    simp only [noRepeatUnderscore, ih, pyLowerChar_eq_95]


end Studynet

namespace Studynet

theorem sanitizeCore_chars (f : PyStr) :
    ∀ c ∈ sanitizeCore f, (isAlnumCode c || c == 95) = true := by
  intro c hc
  rcases mem_joinWith 95 c _ hc with h | ⟨p, hp, hcp⟩
  · subst h; simp
  · have hmem := List.mem_filter.mp hp
    have h2 := (mem_splitOnCode 95 c _ p hmem.1 hcp).1
    have h1 := mem_of_mem_dropWhile _ c _ h2
    rcases List.mem_map.mp h1 with ⟨a, _, ha⟩
    by_cases h : isAlnumCode a = true <;> simp [h] at ha <;> simp [← ha, h]

theorem sanitizeCore_noRepeat (f : PyStr) :
    noRepeatUnderscore (sanitizeCore f) = true := by
  apply noRepeat_joinWith
  intro p hp
  have hmem := List.mem_filter.mp hp
  refine ⟨by simpa using hmem.2, fun c hc => ?_⟩
  exact (mem_splitOnCode 95 c _ p hmem.1 hc).2

theorem sanitizeCore_head (f : PyStr) :
    ∀ c t, sanitizeCore f = c :: t → isDigitCode c = false := by
  intro c t hct
  rcases hsh : sanitizeStripped f with _ | ⟨a, n2t⟩
  · rw [sanitizeCore, hsh] at hct
    simp [splitOnCode, joinWith, List.filter] at hct
  · have hhead := pred_false_of_dropWhile_cons (fun c => isDigitCode c || c == 95) a _ n2t hsh
    simp only [Bool.or_eq_false_iff] at hhead
    rw [sanitizeCore, hsh] at hct
    simp only [splitOnCode] at hct
    rcases hq : splitOnCode 95 n2t with _ | ⟨q, qs⟩
    · exact absurd hq (splitOnCode_ne_nil 95 n2t)
    · rw [hq] at hct
      simp only [hhead.2, Bool.false_eq_true, if_false] at hct
      rw [show ((a :: q) :: qs).filter (fun p => !p.isEmpty) =
            (a :: q) :: qs.filter (fun p => !p.isEmpty) from by simp [List.filter],
          joinWith_cons] at hct
      simp only [List.cons_append, List.cons.injEq] at hct
      rw [← hct.1]
      exact hhead.1

theorem valid_of_props (s : PyStr) (hne : s ≠ [])
    (hall : ∀ c ∈ s, (isAlnumCode c || c == 95) = true)
    (hnr : noRepeatUnderscore s = true)
    (hhd : isDigitCode (s.headD 0) = false) :
    validTableName (pyLower s) = true := by
  rcases s with _ | ⟨c, t⟩
  · exact absurd rfl hne
  · simp only [validTableName, Bool.and_eq_true]
    refine ⟨⟨⟨⟨by simp [pyLower], ?_⟩, ?_⟩, ?_⟩, ?_⟩
    · rw [List.all_eq_true]
      intro x hx
      rcases List.mem_map.mp hx with ⟨a, ha, hax⟩
      rw [← hax]
      exact pyLowerChar_alnum a (hall a ha)
    · rw [List.all_eq_true]
      intro x hx
      rcases List.mem_map.mp hx with ⟨a, _, hax⟩
      rw [← hax]
      exact pyLowerChar_not_upper a
    · rw [show pyLower (c :: t) = (c :: t).map pyLowerChar from rfl,
          noRepeat_map_pyLower]
      exact hnr
    · simp only [pyLower, List.map_cons, List.headD_cons]
      simp only [List.headD_cons] at hhd
      simp [pyLowerChar_not_digit c hhd]

/-- C7: for every source filename the derived table name is non-empty,
lowercase, made only of alphanumerics and underscores with no repeated
underscore run, and does not start with a digit; concretely,
`2024 Provider List.csv` maps to `provider_list`. -/
theorem sanitize_table_name_valid :
    (∀ filename : PyStr, validTableName (sanitize_table_name filename) = true) ∧
      sanitize_table_name (toCodes "2024 Provider List.csv") = toCodes "provider_list" := by
  constructor
  · intro f
    rcases hc : sanitizeCore f with _ | ⟨c, t⟩
    · simp only [sanitize_table_name, hc]
      decide
    · have hd := sanitizeCore_head f c t hc
      simp only [sanitize_table_name, hc, hd, Bool.false_eq_true, if_false,
        List.isEmpty_cons]
      have hall := sanitizeCore_chars f
      have hnr := sanitizeCore_noRepeat f
      rw [hc] at hall hnr
      exact valid_of_props (c :: t) (by simp) hall hnr (by simpa using hd)
  · decide

end Studynet

namespace Studynet

/-! ## SQL query execution (`SQLEngine.execute_query`) -/

/-- A loaded table: a list of rows, each a list of cell values. -/
abbrev Table := List (List Nat)

/-- Codepoints of the text `LIMIT`. -/
def limitCodes : PyStr := toCodes "LIMIT"

/-- The source condition guarding the rewrite in `execute_query`:
`query_upper = query.upper().strip()` has no `LIMIT` substring and does
not end with a semicolon (codepoint 59). -/
def appendLimitCond (query : PyStr) : Bool :=
  let queryUpper := pyStrip (pyUpper query)
  !(containsSub limitCodes queryUpper) && !(endsWithCode 59 queryUpper)

/-- The query text actually executed: when the condition holds the source
runs `query.rstrip(semicolon) + " LIMIT " + str(limit)`. -/
def rewrittenQuery (query : PyStr) (limit : Nat) : PyStr :=
  if appendLimitCond query then
    rstripChar 59 query ++ toCodes " LIMIT " ++ natCodes limit
  else query

/-- Result dictionary of `execute_query` (the error dictionary of the
source carries no row data; it is modeled with zero rows). -/
structure SqlResult where
  success : Bool
  rowCount : Nat
  data : Table
  query : PyStr
deriving DecidableEq, Repr

/-- `SQLEngine.execute_query`, with the pandasql backend abstracted as a
function from the executed query text to an optional table (`none` models
an exception from `sqldf`, caught by the source and returned as the error
dictionary). -/
def execute_query (runSql : PyStr → Option Table) (query : PyStr)
    (limit : Nat) : SqlResult :=
  match runSql (rewrittenQuery query limit) with
  | some df => ⟨true, df.length, df, rewrittenQuery query limit⟩
  | none => ⟨false, 0, [], rewrittenQuery query limit⟩

/-- A 101-row table, used as an in-memory table larger than the default
row limit of 100. -/
def rows101 : Table := (List.range 101).map (fun i => [i])

/-- A miniature SQL backend over `rows101` for the handful of concrete
query texts exercised below, honoring SQLite row-limit semantics. -/
def miniRunSql (q : PyStr) : Option Table :=
  if q = toCodes "SELECT * FROM t" then some rows101
  else if q = toCodes "SELECT * FROM t;" then some rows101
  else if q = toCodes "SELECT * FROM t LIMIT 100" then some (rows101.take 100)
  else if q = toCodes "SELECT speed_limit FROM t" then some rows101
  else none

/-! ## SQL engine table map (`SQLEngine.load_all_csv_files` and
`SQLEngine.add_csv_file`) -/

/-- Python dict assignment `d[k] = v` on an association list. -/
def dictSet (k : PyStr) (v : Table) : List (PyStr × Table) → List (PyStr × Table)
  | [] => [(k, v)]
  | (k', v') :: t => if k = k' then (k, v) :: t else (k', v') :: dictSet k v t

/-- Python `k in d`. -/
def dictHas (k : PyStr) (d : List (PyStr × Table)) : Bool := (d.lookup k).isSome

/-- The engine state: the `self.dataframes` table map (schemas are derived
one-for-one from the tables and are not modeled separately). -/
structure SQLEngineState where
  dataframes : List (PyStr × Table)
deriving DecidableEq

/-- `SQLEngine.add_csv_file`: derives the table name when none is given,
reads the file (the read result is a parameter; `none` models a file that
fails to parse under every encoding), and assigns
`self.dataframes[table_name] = df` unconditionally. -/
def add_csv_file (st : SQLEngineState) (readResult : Option Table)
    (filename : PyStr) (tableName : Option PyStr) : Bool × SQLEngineState :=
  let name := tableName.getD (sanitize_table_name filename)
  match readResult with
  | none => (false, st)
  | some df => (true, ⟨dictSet name df st.dataframes⟩)

/-- A directory entry seen by `load_all_csv_files`: the filename and the
result of `_read_csv_with_encoding` on it. -/
structure CsvFile where
  filename : PyStr
  content : Option Table

/-- One iteration of the `load_all_csv_files` loop: only names ending in
`.csv` (case-insensitively) are considered, a table name already present
is skipped, and an unreadable file is skipped. -/
def load_csv_step (st : SQLEngineState) (f : CsvFile) : SQLEngineState :=
  if (toCodes ".csv").isSuffixOf (pyLower f.filename) then
    if dictHas (sanitize_table_name f.filename) st.dataframes then st
    else
      match f.content with
      | none => st
      | some df => ⟨dictSet (sanitize_table_name f.filename) df st.dataframes⟩
  else st

/-- `SQLEngine.load_all_csv_files` over the concatenated directory
listings. -/
def load_all_csv_files (st : SQLEngineState) (files : List CsvFile) : SQLEngineState :=
  files.foldl load_csv_step st

end Studynet

namespace Studynet

theorem execute_query_query_eq (runSql : PyStr → Option Table) (q : PyStr)
    (limit : Nat) : (execute_query runSql q limit).query = rewrittenQuery q limit := by
  unfold execute_query
  cases runSql (rewrittenQuery q limit) <;> rfl

/-- C2 counterexample: the query `SELECT * FROM t;` contains no row-limit
clause, yet on a 101-row table `execute_query` with the default limit of
100 returns 101 rows, because the trailing semicolon suppresses the
rewrite.  This refutes the claim that every query without a row-limit
clause returns at most the configured limit. -/
theorem execute_query_semicolon_counterexample :
    containsSub limitCodes (pyUpper (toCodes "SELECT * FROM t;")) = false ∧
      (execute_query miniRunSql (toCodes "SELECT * FROM t;") 100).success = true ∧
      (execute_query miniRunSql (toCodes "SELECT * FROM t;") 100).rowCount = 101 ∧
      ¬(execute_query miniRunSql (toCodes "SELECT * FROM t;") 100).rowCount ≤ 100 := by
  decide

/-- C2 amended: whenever the uppercased, stripped query neither contains
`LIMIT` nor ends with a semicolon, `execute_query` appends a row-limit
clause, so any SQL backend honoring row-limit clauses returns at most
`limit` rows (the error dictionary carries zero rows). -/
theorem execute_query_limit_bound (runSql : PyStr → Option Table)
    (hrun : ∀ (p : PyStr) (n : Nat) (t : Table),
      runSql (p ++ toCodes " LIMIT " ++ natCodes n) = some t → t.length ≤ n)
    (query : PyStr) (limit : Nat) (hcond : appendLimitCond query = true) :
    (execute_query runSql query limit).rowCount ≤ limit := by
  unfold execute_query rewrittenQuery
  simp only [hcond, if_true]
  cases hr : runSql (rstripChar 59 query ++ toCodes " LIMIT " ++ natCodes limit) with
  | none => simp
  | some df => simpa using hrun _ _ _ hr

/-- C2 witness: the amended bound applied to a backend that returns an
empty table for every query, on `SELECT * FROM t` with limit 100. -/
theorem execute_query_limit_bound_witness :
    (execute_query (fun _ => some []) (toCodes "SELECT * FROM t") 100).rowCount ≤ 100 :=
  execute_query_limit_bound (fun _ => some [])
    (by intro p n t ht; injection ht with h; rw [← h]; simp)
    (toCodes "SELECT * FROM t") 100 (by decide)

/-- C10: `execute_query` leaves the query text untouched exactly when the
uppercased stripped text contains `LIMIT` anywhere or ends with a
semicolon, and otherwise appends the row-limit clause; consequently the
semicolon-terminated query and the query mentioning a `speed_limit`
column both run unmodified against a 101-row table and return 101 rows,
more than the limit argument of 100. -/
theorem execute_query_append_exactly :
    (∀ (runSql : PyStr → Option Table) (query : PyStr) (limit : Nat),
        containsSub limitCodes (pyStrip (pyUpper query)) = true ∨
          endsWithCode 59 (pyStrip (pyUpper query)) = true →
        (execute_query runSql query limit).query = query) ∧
      (∀ (runSql : PyStr → Option Table) (query : PyStr) (limit : Nat),
        containsSub limitCodes (pyStrip (pyUpper query)) = false →
        endsWithCode 59 (pyStrip (pyUpper query)) = false →
        (execute_query runSql query limit).query =
          rstripChar 59 query ++ toCodes " LIMIT " ++ natCodes limit) ∧
      (execute_query miniRunSql (toCodes "SELECT * FROM t;") 100).query =
        toCodes "SELECT * FROM t;" ∧
      (execute_query miniRunSql (toCodes "SELECT * FROM t;") 100).rowCount = 101 ∧
      (execute_query miniRunSql (toCodes "SELECT speed_limit FROM t") 100).query =
        toCodes "SELECT speed_limit FROM t" ∧
      (execute_query miniRunSql (toCodes "SELECT speed_limit FROM t") 100).rowCount = 101 ∧
      100 < 101 := by
  refine ⟨?_, ?_, by decide, by decide, by decide, by decide, by decide⟩
  · intro runSql query limit h
    rw [execute_query_query_eq, rewrittenQuery]
    have hcond : appendLimitCond query = false := by
      unfold appendLimitCond
      rcases h with h | h <;> simp [h]
    simp [hcond]
  · intro runSql query limit h1 h2
    rw [execute_query_query_eq, rewrittenQuery]
    have hcond : appendLimitCond query = true := by
      unfold appendLimitCond
      simp [h1, h2]
    simp [hcond]

/-- C10 witness: both universally quantified parts applied at concrete
queries. -/
theorem execute_query_append_exactly_witness :
    (execute_query miniRunSql (toCodes "SELECT * FROM t;") 100).query =
        toCodes "SELECT * FROM t;" ∧
      (execute_query miniRunSql (toCodes "SELECT name FROM t") 7).query =
        rstripChar 59 (toCodes "SELECT name FROM t") ++ toCodes " LIMIT " ++ natCodes 7 :=
  ⟨execute_query_append_exactly.1 miniRunSql (toCodes "SELECT * FROM t;") 100
      (Or.inr (by decide)),
    execute_query_append_exactly.2.1 miniRunSql (toCodes "SELECT name FROM t") 7
      (by decide) (by decide)⟩

theorem lookup_dictSet_self (k : PyStr) (v : Table) :
    (d : List (PyStr × Table)) → (dictSet k v d).lookup k = some v
  | [] => by simp [dictSet, List.lookup]
  | (a, b) :: t => by
    by_cases h : k = a
    · simp [dictSet, h, List.lookup]
    · simp only [dictSet, h, if_false, List.lookup]
      have hb : (k == a) = false := by simp [h]
      simp [hb]
      exact lookup_dictSet_self k v t

theorem lookup_dictSet_ne (k k' : PyStr) (v : Table) (hne : k' ≠ k) :
    (d : List (PyStr × Table)) → (dictSet k v d).lookup k' = d.lookup k'
  | [] => by
    have hb : (k' == k) = false := by simp [hne]
    simp [dictSet, List.lookup, hb]
  | (a, b) :: t => by
    by_cases h : k = a
    · subst h
      have hb : (k' == k) = false := by simp [hne]
      simp [dictSet, List.lookup, hb]
    · simp only [dictSet, h, if_false, List.lookup]
      by_cases h2 : k' = a
      · simp [h2]
      · have hb2 : (k' == a) = false := by simp [h2]
        simp [hb2]
        exact lookup_dictSet_ne k k' v hne t

theorem load_csv_step_preserves (st : SQLEngineState) (f : CsvFile)
    (name : PyStr) (v : Table) (h : st.dataframes.lookup name = some v) :
    (load_csv_step st f).dataframes.lookup name = some v := by
  unfold load_csv_step
  by_cases h1 : (toCodes ".csv").isSuffixOf (pyLower f.filename) = true
  · rw [if_pos h1]
    by_cases h2 : dictHas (sanitize_table_name f.filename) st.dataframes = true
    · rw [if_pos h2]; exact h
    · rw [if_neg h2]
      cases hc : f.content with
      | none => exact h
      | some df =>
        have hne : name ≠ sanitize_table_name f.filename := by
          intro he
          apply h2
          rw [← he]
          simp [dictHas, h]
        rw [lookup_dictSet_ne _ name df hne st.dataframes]
        exact h
  · rw [if_neg h1]; exact h

/-- C6 counterexample: with a `providers` table already loaded,
`add_csv_file` on a file whose derived name is also `providers` silently
replaces the stored rows, so re-adding a duplicate name is not a
no-op/skip. -/
theorem add_csv_file_overwrites :
    dictHas (sanitize_table_name (toCodes "providers.csv"))
        (SQLEngineState.mk [(toCodes "providers", [[1]])]).dataframes = true ∧
      ((add_csv_file ⟨[(toCodes "providers", [[1]])]⟩ (some [[2], [3]])
            (toCodes "providers.csv") none).2.dataframes.lookup
          (toCodes "providers")) = some [[2], [3]] ∧
      ([[2], [3]] : Table) ≠ [[1]] := by
  decide

/-- C6 amended: the bulk loader `load_all_csv_files` skips any file whose
derived table name is already present, leaving every existing table
unchanged, while the single-file entry point `add_csv_file` assigns the
new table unconditionally, overwriting an existing table of the same
name. -/
theorem load_all_skips_add_overwrites :
    (∀ (st : SQLEngineState) (files : List CsvFile) (name : PyStr) (v : Table),
        st.dataframes.lookup name = some v →
        (load_all_csv_files st files).dataframes.lookup name = some v) ∧
      (∀ (st : SQLEngineState) (df : Table) (filename : PyStr),
        (add_csv_file st (some df) filename none).2.dataframes.lookup
          (sanitize_table_name filename) = some df) := by
  constructor
  · intro st files
    induction files generalizing st with
    | nil => intro name v h; exact h
    | cons f fs ih =>
      intro name v h
      exact ih (load_csv_step st f) name v (load_csv_step_preserves st f name v h)
  · intro st df filename
    simp only [add_csv_file, Option.getD]
    exact lookup_dictSet_self _ df st.dataframes

/-- C6 witness: the skip half applied to a concrete engine holding one
table and one incoming duplicate file. -/
theorem load_all_skips_witness :
    (load_all_csv_files ⟨[(toCodes "providers", [[1]])]⟩
        [⟨toCodes "providers.csv", some [[9]]⟩]).dataframes.lookup
      (toCodes "providers") = some [[1]] :=
  load_all_skips_add_overwrites.1 ⟨[(toCodes "providers", [[1]])]⟩
    [⟨toCodes "providers.csv", some [[9]]⟩] (toCodes "providers") [[1]] (by decide)

end Studynet

namespace Studynet

/-! ## Query classifier (`src/api/query_classifier.py`) -/

/-- The three routing labels of `QueryType`. -/
inductive QueryType
  | structuredSql
  | semanticRag
  | hybrid
deriving DecidableEq, Repr, BEq

/-- `self.sql_keywords`, the structured-query vocabulary, verbatim. -/
def sqlKeywords : List PyStr :=
  [toCodes "count", toCodes "total", toCodes "sum", toCodes "average",
   toCodes "max", toCodes "min", toCodes "how many", toCodes "list all",
   toCodes "show all", toCodes "filter", toCodes "where", toCodes "group by",
   toCodes "aggregate", toCodes "statistics", toCodes "top", toCodes "bottom",
   toCodes "ranking", toCodes "fees", toCodes "fee", toCodes "provider",
   toCodes "providers", toCodes "course", toCodes "courses", toCodes "data",
   toCodes "records", toCodes "entries", toCodes "price", toCodes "cost",
   toCodes "degree", toCodes "degrees"]

/-- `self.rag_keywords`, the semantic vocabulary, verbatim. -/
def ragKeywords : List PyStr :=
  [toCodes "how to", toCodes "what is", toCodes "explain", toCodes "describe",
   toCodes "why", toCodes "process", toCodes "procedure", toCodes "steps",
   toCodes "guide", toCodes "overview", toCodes "concept", toCodes "definition",
   toCodes "meaning", toCodes "purpose", toCodes "workflow",
   toCodes "application", toCodes "management", toCodes "leads", toCodes "crm"]

/-- Count of structured-vocabulary keywords occurring as substrings of the
lowercased query (the Python generator sums over the keyword set, whose
members are pairwise distinct, so the filter length is that sum). -/
def sqlMatches (query : PyStr) : Nat :=
  (sqlKeywords.filter (fun kw => containsSub kw (pyLower query))).length

/-- Count of semantic-vocabulary keywords in the lowercased query. -/
def ragMatches (query : PyStr) : Nat :=
  (ragKeywords.filter (fun kw => containsSub kw (pyLower query))).length

/-- `QueryClassifier._keyword_based_classification`. -/
def keyword_based_classification (query : PyStr) : Option QueryType :=
  if sqlMatches query ≥ 2 ∧ ragMatches query = 0 then some .structuredSql
  else if ragMatches query ≥ 2 ∧ sqlMatches query = 0 then some .semanticRag
  else if sqlMatches query ≥ 1 ∧ ragMatches query ≥ 1 then some .hybrid
  else none

/-- The dictionary returned by `QueryClassifier.classify_query` (the
`available_tables` echo field is not modeled; it only feeds the LLM
prompt). -/
structure Classification where
  queryType : QueryType
  methodIsKeyword : Bool
  requiresSql : Bool
  requiresRag : Bool
deriving DecidableEq, Repr

/-- `QueryClassifier.classify_query`: tier 1 is the keyword classifier;
the tier-2 single-shot LLM classification (including its parse fallback
to the semantic label) is abstracted as a total function `llmTier`. -/
def classify_query (llmTier : PyStr → QueryType) (query : PyStr) : Classification :=
  match keyword_based_classification query with
  | some t => ⟨t, true, t == .structuredSql || t == .hybrid,
      t == .semanticRag || t == .hybrid⟩
  | none =>
    let t := llmTier query
    ⟨t, false, t == .structuredSql || t == .hybrid,
      t == .semanticRag || t == .hybrid⟩

/-- C3: tier-1 keyword classification returns the structured label exactly
when structured matches are at least 2 and semantic matches are 0, the
semantic label exactly in the mirrored case, the hybrid label exactly when
both counts are at least 1, and falls through to the LLM tier otherwise;
`requires_sql` and `requires_rag` are derived deterministically from the
resulting query type, and the spec example classifies as hybrid. -/
theorem keyword_classification_thresholds :
    (∀ query : PyStr,
      (keyword_based_classification query = some .structuredSql ↔
        sqlMatches query ≥ 2 ∧ ragMatches query = 0) ∧
      (keyword_based_classification query = some .semanticRag ↔
        ragMatches query ≥ 2 ∧ sqlMatches query = 0) ∧
      (keyword_based_classification query = some .hybrid ↔
        sqlMatches query ≥ 1 ∧ ragMatches query ≥ 1) ∧
      (keyword_based_classification query = none ↔
        ¬(sqlMatches query ≥ 2 ∧ ragMatches query = 0) ∧
        ¬(ragMatches query ≥ 2 ∧ sqlMatches query = 0) ∧
        ¬(sqlMatches query ≥ 1 ∧ ragMatches query ≥ 1))) ∧
    (∀ (llmTier : PyStr → QueryType) (query : PyStr),
      (classify_query llmTier query).requiresSql =
        ((classify_query llmTier query).queryType == .structuredSql ||
          (classify_query llmTier query).queryType == .hybrid) ∧
      (classify_query llmTier query).requiresRag =
        ((classify_query llmTier query).queryType == .semanticRag ||
          (classify_query llmTier query).queryType == .hybrid)) ∧
    keyword_based_classification
        (toCodes "List all providers and explain the application process") =
      some .hybrid := by
  refine ⟨?_, ?_, by decide⟩
  · intro query
    unfold keyword_based_classification
    refine ⟨?_, ?_, ?_, ?_⟩ <;> split_ifs <;> simp_all
  · intro llmTier query
    unfold classify_query
    cases keyword_based_classification query <;> simp

end Studynet

namespace Studynet

/-! ## Hybrid retriever fusion (`HybridRetriever.reciprocal_rank_fusion`) -/

/-- A retrieved document, identified as in the source by Python object
identity `id(doc)`, modeled as a natural number; search results pair a
document with its raw score. -/
abbrev DocId := Nat

/-- The standard RRF constant of the source. -/
def rrfConstant : ℚ := 60

/-- Accumulation into the `doc_scores` dictionary: a missing key is
created with score 0 and then incremented (insertion order preserved). -/
def dictAddScore (key : DocId) (delta : ℚ) : List (DocId × ℚ) → List (DocId × ℚ)
  | [] => [(key, delta)]
  | (k, v) :: t => if key = k then (k, v + delta) :: t else (k, v) :: dictAddScore key delta t

/-- One `for rank, (doc, score) in enumerate(results)` loop of the source:
each item at 0-indexed rank `r` contributes `weight / (60 + r + 1)` to its
document. -/
def rrfAddList (weight : ℚ) (results : List (DocId × ℚ))
    (acc : List (DocId × ℚ)) : List (DocId × ℚ) :=
  results.enum.foldl
    (fun d p => dictAddScore p.2.1 (weight / (rrfConstant + p.1 + 1)) d) acc

/-- The `doc_scores` dictionary after both loops of
`reciprocal_rank_fusion` with semantic weight `sw` (keyword weight is
`1 - sw`). -/
def rrfScoresDict (semanticResults keywordResults : List (DocId × ℚ))
    (sw : ℚ) : List (DocId × ℚ) :=
  rrfAddList (1 - sw) keywordResults (rrfAddList sw semanticResults [])

/-- The accumulated fused score of one document. -/
def rrfScore (semanticResults keywordResults : List (DocId × ℚ)) (sw : ℚ)
    (d : DocId) : ℚ :=
  ((rrfScoresDict semanticResults keywordResults sw).lookup d).getD 0

/-- Stable descending insertion used to model the Python stable sort by
score. -/
def insertByScore (x : DocId × ℚ) : List (DocId × ℚ) → List (DocId × ℚ)
  | [] => [x]
  | y :: t => if y.2 ≥ x.2 then y :: insertByScore x t else x :: y :: t

/-- `sorted(doc_scores.values(), by score, reverse)` then `take k` of the
documents: the list returned by `reciprocal_rank_fusion`. -/
def reciprocal_rank_fusion (semanticResults keywordResults : List (DocId × ℚ))
    (k : Nat) (sw : ℚ) : List DocId :=
  ((((rrfScoresDict semanticResults keywordResults sw).foldl
        (fun acc x => insertByScore x acc) []).map (·.1)).take k)

/-- Closed-form single-list contribution: the sum of
`weight / (60 + r + 1)` over the 0-indexed ranks `r` at which document `d`
occurs, starting the enumeration at `n`. -/
def rrfContributionFrom (weight : ℚ) (results : List (DocId × ℚ)) (n : Nat)
    (d : DocId) : ℚ :=
  (((results.enumFrom n).filter (fun p => p.2.1 == d)).map
    (fun p => weight / (rrfConstant + p.1 + 1))).sum

/-- Closed-form contribution of one whole list. -/
def rrfContribution (weight : ℚ) (results : List (DocId × ℚ)) (d : DocId) : ℚ :=
  rrfContributionFrom weight results 0 d

theorem lookup_dictAddScore_self (key : DocId) (delta : ℚ) :
    (l : List (DocId × ℚ)) →
      ((dictAddScore key delta l).lookup key).getD 0 = (l.lookup key).getD 0 + delta
  | [] => by simp [dictAddScore, List.lookup]
  | (k, v) :: t => by
    by_cases h : key = k
    · subst h
      simp [dictAddScore, List.lookup]
    · have hb : (key == k) = false := by simp [h]
      simp only [dictAddScore, h, if_false, List.lookup, hb]
      exact lookup_dictAddScore_self key delta t

theorem lookup_dictAddScore_ne (key d : DocId) (delta : ℚ) (h : d ≠ key) :
    (l : List (DocId × ℚ)) →
      (dictAddScore key delta l).lookup d = l.lookup d
  | [] => by
    have hb : (d == key) = false := by simp [h]
    simp [dictAddScore, List.lookup, hb]
  | (k, v) :: t => by
    by_cases hk : key = k
    · subst hk
      have hb : (d == key) = false := by simp [h]
      simp [dictAddScore, List.lookup, hb]
    · simp only [dictAddScore, hk, if_false, List.lookup]
      by_cases hd : d = k
      · simp [hd]
      · have hb : (d == k) = false := by simp [hd]
        simp only [hb, Bool.false_eq_true, if_false]
        exact lookup_dictAddScore_ne key d delta h t

theorem rrfAddList_score (weight : ℚ) (d : DocId) :
    (results : List (DocId × ℚ)) → (n : Nat) → (acc : List (DocId × ℚ)) →
      (((results.enumFrom n).foldl
          (fun dd p => dictAddScore p.2.1 (weight / (rrfConstant + p.1 + 1)) dd)
          acc).lookup d).getD 0 =
        (acc.lookup d).getD 0 + rrfContributionFrom weight results n d
  | [], n, acc => by simp [rrfContributionFrom, List.enumFrom]
  | (x, s) :: t, n, acc => by
    have ih := rrfAddList_score weight d t (n + 1)
      (dictAddScore x (weight / (rrfConstant + n + 1)) acc)
    simp only [List.enumFrom, List.foldl_cons] at ih ⊢
    rw [ih]
    by_cases h : x = d
    · subst h
      rw [lookup_dictAddScore_self]
      simp only [rrfContributionFrom, List.enumFrom, List.filter_cons]
      simp only [beq_self_eq_true, if_true, List.map_cons, List.sum_cons]
      ring
    · rw [lookup_dictAddScore_ne x d _ (fun e => h e.symm)]
      simp only [rrfContributionFrom, List.enumFrom, List.filter_cons]
      have hb : (x == d) = false := by simp [h]
      simp only [hb, Bool.false_eq_true, if_false]

/-- C1: in reciprocal rank fusion every item at 0-indexed rank `r`
contributes `weight / (60 + r + 1)` with weight `sw` for the semantic
list and `1 - sw` for the keyword list, scores for the same document
accumulating across the two lists; and in the spec example with semantic
results `[A, B, C]`, keyword results `[B, D]` and semantic weight 0.6,
document `B` scores strictly higher than `A`, `C` and `D`, each of which
appears in only one list. -/
theorem reciprocal_rank_fusion_scores :
    (∀ (semanticResults keywordResults : List (DocId × ℚ)) (sw : ℚ) (d : DocId),
      rrfScore semanticResults keywordResults sw d =
        rrfContribution sw semanticResults d +
          rrfContribution (1 - sw) keywordResults d) ∧
    (rrfScore [(0, 0), (1, 0), (2, 0)] [(1, 0), (3, 0)] (3/5) 1 >
        rrfScore [(0, 0), (1, 0), (2, 0)] [(1, 0), (3, 0)] (3/5) 0 ∧
      rrfScore [(0, 0), (1, 0), (2, 0)] [(1, 0), (3, 0)] (3/5) 1 >
        rrfScore [(0, 0), (1, 0), (2, 0)] [(1, 0), (3, 0)] (3/5) 2 ∧
      rrfScore [(0, 0), (1, 0), (2, 0)] [(1, 0), (3, 0)] (3/5) 1 >
        rrfScore [(0, 0), (1, 0), (2, 0)] [(1, 0), (3, 0)] (3/5) 3) := by
  have hmain : ∀ (semR kwR : List (DocId × ℚ)) (sw : ℚ) (d : DocId),
      rrfScore semR kwR sw d =
        rrfContribution sw semR d + rrfContribution (1 - sw) kwR d := by
    intro semR kwR sw d
    unfold rrfScore rrfScoresDict rrfAddList rrfContribution
    rw [show (List.enum kwR) = kwR.enumFrom 0 from rfl,
        show (List.enum semR) = semR.enumFrom 0 from rfl]
    rw [rrfAddList_score, rrfAddList_score]
    simp
  refine ⟨hmain, ?_, ?_, ?_⟩ <;>
    · rw [hmain, hmain]
      norm_num [rrfContribution, rrfContributionFrom, List.enumFrom,
        List.filter_cons, beq_iff_eq, rrfConstant]

end Studynet

namespace Studynet

/-! ## Hybrid search (`HybridRetriever.hybrid_search`) -/

/-- `HybridRetriever.hybrid_search` in the deployment without a
cross-encoder (`self.cross_encoder = None`, so the final step is the
plain truncation branch).  The two search services are parameters;
`semanticSvc` models `semantic_search` (a direct call into the vector
store and embedding service with no exception handling on this path) and
`keywordSvc` models `keyword_search` over the BM25 index.  An `Except`
error models a raised exception. -/
def hybrid_search (semanticSvc keywordSvc : PyStr → Nat → Except PyStr (List (DocId × ℚ)))
    (query : PyStr) (k : Nat) (semanticWeight : ℚ) : Except PyStr (List DocId) := do
  let semanticResults ← semanticSvc query (k * 2)
  let keywordResults ← keywordSvc query (k * 2)
  let fusedDocs := reciprocal_rank_fusion semanticResults keywordResults (k * 2) semanticWeight
  pure (fusedDocs.take k)

/-- C5 counterexample: when the embedding service is unreachable (the
semantic search raises), `hybrid_search` raises to its caller instead of
returning keyword-only results, even though the keyword service has
results to offer. -/
theorem hybrid_search_raises_counterexample :
    hybrid_search (fun _ _ => .error (toCodes "embedding service unreachable"))
        (fun _ _ => .ok [(7, 1)]) (toCodes "visa requirements") 5 (3/5) =
      .error (toCodes "embedding service unreachable") := by
  rfl

/-- C5 amended: `hybrid_search` propagates any error of the semantic
search unchanged (there is no keyword-only fallback), and only when both
searches succeed does it return the fused, truncated document list. -/
theorem hybrid_search_error_propagation
    (semanticSvc keywordSvc : PyStr → Nat → Except PyStr (List (DocId × ℚ)))
    (query : PyStr) (k : Nat) (sw : ℚ) :
    (∀ e, semanticSvc query (k * 2) = .error e →
      hybrid_search semanticSvc keywordSvc query k sw = .error e) ∧
    (∀ semR kwR, semanticSvc query (k * 2) = .ok semR →
      keywordSvc query (k * 2) = .ok kwR →
      hybrid_search semanticSvc keywordSvc query k sw =
        .ok ((reciprocal_rank_fusion semR kwR (k * 2) sw).take k)) := by
  constructor
  · intro e he
    unfold hybrid_search
    rw [he]
    rfl
  · intro semR kwR hs hk
    unfold hybrid_search
    rw [hs, hk]
    rfl

/-- C5 witness: the propagation law applied to concrete failing and
succeeding services. -/
theorem hybrid_search_error_propagation_witness :
    hybrid_search (fun _ _ => .error (toCodes "down")) (fun _ _ => .ok [])
        (toCodes "q") 3 (3/5) = .error (toCodes "down") ∧
      hybrid_search (fun _ _ => .ok [(1, 1)]) (fun _ _ => .ok [])
          (toCodes "q") 3 (3/5) =
        .ok ((reciprocal_rank_fusion [(1, 1)] [] 6 (3/5)).take 3) :=
  ⟨(hybrid_search_error_propagation (fun _ _ => .error (toCodes "down"))
      (fun _ _ => .ok []) (toCodes "q") 3 (3/5)).1 (toCodes "down") rfl,
    (hybrid_search_error_propagation (fun _ _ => .ok [(1, 1)])
      (fun _ _ => .ok []) (toCodes "q") 3 (3/5)).2 [(1, 1)] [] rfl rfl⟩

end Studynet

namespace Studynet

/-! ## Hierarchical vector store (`src/api/vectorstore.py`) -/

/-- A stored child chunk: its text, the back-reference `parent_id`, and
the `chunk_index` position marker (uuid parent ids are modeled by a
fresh-counter state). -/
structure ChildChunk where
  text : PyStr
  parentId : Nat
  chunkIndex : Nat
deriving DecidableEq, Repr

/-- A stored parent chunk with its `num_children` marker. -/
structure ParentChunk where
  id : Nat
  text : PyStr
  numChildren : Nat
deriving DecidableEq, Repr

/-- The two Chroma collections and the uuid source of
`HierarchicalVectorStore` (the `parent_child_map` is determined by the
child store and not modeled separately). -/
structure VectorStore where
  childStore : List ChildChunk
  parentStore : List ParentChunk
  nextParentId : Nat
deriving DecidableEq, Repr

def emptyVectorStore : VectorStore := ⟨[], [], 0⟩

/-- Child records produced from one parent chunk: the inner loop of
`add_documents` skips whitespace-only child chunks and stamps
`parent_id` and `chunk_index` on the rest. -/
def childRecords (childChunks : List PyStr) (pid : Nat) : List ChildChunk :=
  childChunks.enum.filterMap
    (fun p => if (pyStrip p.2).isEmpty then none else some ⟨p.2, pid, p.1⟩)

/-- Processing of one parent chunk inside `add_documents`: whitespace-only
parent chunks are skipped; children are written to the child store; the
parent is written, and its id collected, only when at least one child
survived.  `csplit` is the child splitter (`split_text` of the child
`RecursiveCharacterTextSplitter`, modeled as a total function — the
source's exception fallback of using the whole parent as one child is the
instance `csplit = fun s => [s]`). -/
def addParentChunk (csplit : PyStr → List PyStr) (acc : VectorStore × List Nat)
    (parentChunk : PyStr) : VectorStore × List Nat :=
  if (pyStrip parentChunk).isEmpty then acc
  else
    let st := acc.1
    let pid := st.nextParentId
    let children := childRecords (csplit parentChunk) pid
    if children.isEmpty then ({ st with nextParentId := pid + 1 }, acc.2)
    else
      ({ childStore := st.childStore ++ children,
         parentStore := st.parentStore ++ [⟨pid, parentChunk, children.length⟩],
         nextParentId := pid + 1 }, acc.2 ++ [pid])

/-- `HierarchicalVectorStore.add_documents`: skips whitespace-only
documents, splits each into parent chunks with `psplit`, and processes
each parent chunk; it returns the new store and the collected
`all_parent_ids`. -/
def add_documents (psplit csplit : PyStr → List PyStr) (st : VectorStore)
    (docs : List PyStr) : VectorStore × List Nat :=
  docs.foldl
    (fun acc doc =>
      if (pyStrip doc).isEmpty then acc
      else (psplit doc).foldl (addParentChunk csplit) acc)
    (st, [])

/-- The no-orphans invariant: every stored child has a stored parent, and
every stored parent has at least one stored non-empty child. -/
def storeInvariant (st : VectorStore) : Bool :=
  st.childStore.all (fun c => st.parentStore.any (fun p => p.id == c.parentId)) &&
    st.parentStore.all (fun p =>
      st.childStore.any (fun c => c.parentId == p.id && !(pyStrip c.text).isEmpty))

theorem childRecords_mem (childChunks : List PyStr) (pid : Nat)
    (c : ChildChunk) (hc : c ∈ childRecords childChunks pid) :
    c.parentId = pid ∧ (pyStrip c.text).isEmpty = false := by
  rcases List.mem_filterMap.mp hc with ⟨p, _, hp⟩
  by_cases h : (pyStrip p.2).isEmpty = true
  · simp [h] at hp
  · simp only [h] at hp
    simp only [Bool.false_eq_true, if_false, Option.some.injEq] at hp
    rw [← hp]
    simpa using h

theorem addParentChunk_invariant (csplit : PyStr → List PyStr)
    (acc : VectorStore × List Nat) (pc : PyStr)
    (h : storeInvariant acc.1 = true) :
    storeInvariant (addParentChunk csplit acc pc).1 = true := by
  unfold addParentChunk
  by_cases h1 : (pyStrip pc).isEmpty = true
  · simpa [h1] using h
  · simp only [h1, Bool.false_eq_true, if_false]
    by_cases h2 : (childRecords (csplit pc) acc.1.nextParentId).isEmpty = true
    · simpa [h2] using h
    · simp only [h2, Bool.false_eq_true, if_false]
      simp only [storeInvariant, List.all_eq_true, List.any_eq_true,
        Bool.and_eq_true, List.mem_append, List.mem_singleton] at h ⊢
      rcases h with ⟨hchild, hparent⟩
      rcases List.isEmpty_eq_false_iff_exists_mem.mp (by simpa using h2) with ⟨c0, hc0⟩
      constructor
      · intro c hc
        rcases hc with hc | hc
        · rcases hchild c hc with ⟨p, hp, hpc⟩
          exact ⟨p, Or.inl hp, hpc⟩
        · refine ⟨⟨acc.1.nextParentId, pc, (childRecords (csplit pc) acc.1.nextParentId).length⟩,
            Or.inr rfl, ?_⟩
          have := (childRecords_mem _ _ c hc).1
          simp [this]
      · intro p hp
        rcases hp with hp | hp
        · rcases hparent p hp with ⟨c, hc, hcp⟩
          exact ⟨c, Or.inl hc, hcp⟩
        · subst hp
          refine ⟨c0, Or.inr hc0, ?_⟩
          have h3 := childRecords_mem _ _ c0 hc0
          simp [h3.1, h3.2]

theorem foldl_addParentChunk_invariant (csplit : PyStr → List PyStr)
    (pcs : List PyStr) (acc : VectorStore × List Nat)
    (h : storeInvariant acc.1 = true) :
    storeInvariant ((pcs.foldl (addParentChunk csplit) acc)).1 = true := by
  induction pcs generalizing acc with
  | nil => exact h
  | cons pc pcs ih =>
    exact ih (addParentChunk csplit acc pc) (addParentChunk_invariant csplit acc pc h)

theorem add_documents_invariant_aux (psplit csplit : PyStr → List PyStr)
    (docs : List PyStr) (acc : VectorStore × List Nat)
    (h : storeInvariant acc.1 = true) :
    storeInvariant (docs.foldl
      (fun acc doc =>
        if (pyStrip doc).isEmpty then acc
        else (psplit doc).foldl (addParentChunk csplit) acc) acc).1 = true := by
  induction docs generalizing acc with
  | nil => exact h
  | cons doc docs ih =>
    apply ih
    by_cases h1 : (pyStrip doc).isEmpty = true
    · simpa [h1] using h
    · simp only [h1, Bool.false_eq_true, if_false]
      exact foldl_addParentChunk_invariant csplit (psplit doc) acc h

/-- C4: after any sequence of `add_documents` calls starting from the
empty store (with arbitrary parent and child splitters per call), every
stored child chunk references a stored parent chunk, and every stored
parent chunk has at least one stored non-empty child. -/
theorem add_documents_no_orphans :
    ∀ (calls : List ((PyStr → List PyStr) × (PyStr → List PyStr) × List PyStr)),
      storeInvariant
        (calls.foldl
          (fun st call => (add_documents call.1 call.2.1 st call.2.2).1)
          emptyVectorStore) = true := by
  have h : ∀ (calls : List ((PyStr → List PyStr) × (PyStr → List PyStr) × List PyStr))
      (st : VectorStore), storeInvariant st = true →
      storeInvariant
        (calls.foldl (fun st call => (add_documents call.1 call.2.1 st call.2.2).1) st) = true := by
    intro calls
    induction calls with
    | nil => intro st hst; exact hst
    | cons c cs ih =>
      intro st hst
      exact ih _ (add_documents_invariant_aux c.1 c.2.1 c.2.2 (st, []) hst)
  intro calls
  exact h calls emptyVectorStore rfl

end Studynet

namespace Studynet

/-! ## Query enhancer (`src/api/query_enhancer.py`) -/

/-- `self.acronym_dict`, keyed by uppercase acronym, verbatim. -/
def acronymDict : List (PyStr × PyStr) :=
  [(toCodes "CRM", toCodes "Customer Relationship Management"),
   (toCodes "AI", toCodes "Artificial Intelligence"),
   (toCodes "ML", toCodes "Machine Learning"),
   (toCodes "NLP", toCodes "Natural Language Processing"),
   (toCodes "RAG", toCodes "Retrieval Augmented Generation"),
   (toCodes "LLM", toCodes "Large Language Model"),
   (toCodes "API", toCodes "Application Programming Interface"),
   (toCodes "UI", toCodes "User Interface"),
   (toCodes "UX", toCodes "User Experience"),
   (toCodes "PDF", toCodes "Portable Document Format"),
   (toCodes "CSV", toCodes "Comma-Separated Values"),
   (toCodes "SQL", toCodes "Structured Query Language"),
   (toCodes "RPL", toCodes "Recognition of Prior Learning"),
   (toCodes "NSW", toCodes "New South Wales")]

/-- `self.stop_words`, verbatim. -/
def stopWords : List PyStr :=
  [toCodes "the", toCodes "is", toCodes "at", toCodes "which", toCodes "on",
   toCodes "and", toCodes "a", toCodes "an", toCodes "as", toCodes "are",
   toCodes "was", toCodes "were", toCodes "be", toCodes "been", toCodes "being",
   toCodes "have", toCodes "has", toCodes "had", toCodes "do", toCodes "does",
   toCodes "did", toCodes "will", toCodes "would", toCodes "could",
   toCodes "should", toCodes "may", toCodes "might", toCodes "must",
   toCodes "can", toCodes "shall", toCodes "to", toCodes "of", toCodes "in",
   toCodes "for", toCodes "with", toCodes "by", toCodes "from",
   toCodes "about", toCodes "into", toCodes "through", toCodes "during",
   toCodes "before", toCodes "after", toCodes "above", toCodes "below",
   toCodes "up", toCodes "down", toCodes "out", toCodes "off", toCodes "over",
   toCodes "under", toCodes "again", toCodes "further"]

/-- The word punctuation stripped by the enhancer, `.,!?;:`. -/
def punctChars : PyStr := toCodes ".,!?;:"

/-- `QueryEnhancer.expand_acronyms`: per whitespace word, strip
punctuation, look the uppercased form up in the dictionary and rewrite
the word to `word (Full Form)` on a hit. -/
def expand_acronyms (query : PyStr) : PyStr :=
  joinWith 32 ((pySplitWs query).map (fun w =>
    match acronymDict.lookup (pyUpper (stripSet punctChars w)) with
    | some e => stripSet punctChars w ++ toCodes " (" ++ e ++ toCodes ")"
    | none => w))

/-- `QueryEnhancer.remove_stop_words`: lowercase, whitespace split, drop
stop words, rejoin; the original query is returned when everything was a
stop word. -/
def remove_stop_words (query : PyStr) : PyStr :=
  let filtered := (pySplitWs (pyLower query)).filter (fun w => !stopWords.contains w)
  if filtered.isEmpty then query else joinWith 32 filtered

/-- Stable insertion for the Python stable `sort(by length, reverse)`. -/
def insertByLenDesc (w : PyStr) : List PyStr → List PyStr
  | [] => [w]
  | x :: t => if x.length ≥ w.length then x :: insertByLenDesc w t else w :: x :: t

def sortByLenDesc (ws : List PyStr) : List PyStr :=
  ws.foldl (fun acc w => insertByLenDesc w acc) []

/-- The dedupe-and-cap loop of `extract_keywords`: keep words longer than
2 characters whose lowercase form is new, stopping at `budget` kept
keywords. -/
def pickKeywords : Nat → List PyStr → List PyStr → List PyStr
  | _, _, [] => []
  | 0, _, _ => []
  | b + 1, seen, w :: t =>
    if !(seen.contains (pyLower w)) && w.length > 2 then
      w :: pickKeywords b (pyLower w :: seen) t
    else pickKeywords (b + 1) seen t

/-- `QueryEnhancer.extract_keywords` with `max_keywords` slots. -/
def extract_keywords (query : PyStr) (maxKeywords : Nat) : List PyStr :=
  let ws := (pySplitWs (remove_stop_words query)).map (stripSet punctChars)
  pickKeywords maxKeywords [] (sortByLenDesc ws)

/-- The variation-generation prompt (the literal is condensed; only the
call structure matters to the embedding). -/
def variationPrompt (query : PyStr) : PyStr :=
  toCodes "Generate 3 alternative phrasings of the following query: " ++ query

/-- `QueryEnhancer.generate_query_variations`: on LLM success, split the
response on newlines, keep non-blank lines stripped of whitespace and
leading enumeration markers, cap at `num_variations`, and prepend the
original query, dropping duplicates of it; any exception from the LLM
call is caught and degrades to the original query alone. -/
def generate_query_variations (llm : PyStr → Except Unit PyStr)
    (query : PyStr) (numVariations : Nat) : List PyStr :=
  match llm (variationPrompt query) with
  | .error _ => [query]
  | .ok resp =>
    let vars := (((splitOnCode 10 (pyStrip resp)).filter
        (fun v => !(pyStrip v).isEmpty)).map
          (fun v => lstripSet (toCodes "123456789.-) ") (pyStrip v))).take numVariations
    query :: vars.filter (fun v => !v.isEmpty && !(v == query))

/-- The context-aware prompt (condensed literal over the last 500
characters of context). -/
def contextPrompt (query context : PyStr) : PyStr :=
  toCodes "Generate a standalone version of the query: " ++
    lastChars 500 context ++ toCodes " | " ++ query

/-- `QueryEnhancer._generate_context_aware_query`: the caught-exception
and blank-response paths both degrade to the original query. -/
def generate_context_aware_query (llm : PyStr → Except Unit PyStr)
    (query context : PyStr) : PyStr :=
  match llm (contextPrompt query context) with
  | .error _ => query
  | .ok r =>
    if (lstripSet (toCodes "123.-) ") (pyStrip r)).isEmpty then query
    else lstripSet (toCodes "123.-) ") (pyStrip r)

/-- The dictionary returned by `QueryEnhancer.enhance_query`. -/
structure EnhancedQuery where
  original : PyStr
  expanded : PyStr
  keywords : List PyStr
  variations : List PyStr
  contextAware : PyStr
  totalQueries : Nat
deriving DecidableEq, Repr

/-- `QueryEnhancer.enhance_query`: acronym expansion, keyword extraction,
LLM variations, and — when a non-empty context is supplied (Python
truthiness) — a context-aware rewrite appended only if not already among
the variations.  The two LLM entry points are separate parameters. -/
def enhance_query (llmVar llmCtx : PyStr → Except Unit PyStr)
    (query : PyStr) (context : Option PyStr) : EnhancedQuery :=
  let expandedQuery := expand_acronyms query
  let keywords := extract_keywords query 5
  let variations := generate_query_variations llmVar query 3
  match context with
  | none => ⟨query, expandedQuery, keywords, variations, query, variations.length⟩
  | some c =>
    if c.isEmpty then ⟨query, expandedQuery, keywords, variations, query, variations.length⟩
    else
      let ca := generate_context_aware_query llmCtx query c
      if variations.contains ca then
        ⟨query, expandedQuery, keywords, variations, ca, variations.length⟩
      else
        ⟨query, expandedQuery, keywords, variations ++ [ca], ca,
          (variations ++ [ca]).length⟩

theorem generate_query_variations_head (llm : PyStr → Except Unit PyStr)
    (query : PyStr) (n : Nat) :
    (generate_query_variations llm query n).head? = some query := by
  unfold generate_query_variations
  cases llm (variationPrompt query) <;> rfl

/-- C8: `enhance_query` is total for every behavior of the two LLM entry
points (all their failures are absorbed), its variations list is never
empty and always starts with the original query, and when every LLM call
fails the result degrades exactly to the lightly-processed input: the
acronym-expanded query, the extracted keywords, the original query as the
single variation, and the original query as the context-aware field. -/
theorem enhance_query_never_fails :
    (∀ (llmVar llmCtx : PyStr → Except Unit PyStr) (query : PyStr)
        (context : Option PyStr),
      (enhance_query llmVar llmCtx query context).variations ≠ [] ∧
        (enhance_query llmVar llmCtx query context).variations.head? = some query) ∧
    (∀ (query : PyStr) (context : Option PyStr),
      enhance_query (fun _ => .error ()) (fun _ => .error ()) query context =
        ⟨query, expand_acronyms query, extract_keywords query 5, [query], query, 1⟩) := by
  constructor
  · intro llmVar llmCtx query context
    have hv : ∃ rest, generate_query_variations llmVar query 3 = query :: rest := by
      unfold generate_query_variations
      cases llmVar (variationPrompt query) with
      | error e => exact ⟨[], rfl⟩
      | ok r => exact ⟨_, rfl⟩
    rcases hv with ⟨rest, hrest⟩
    unfold enhance_query
    rcases context with _ | c
    · simp [hrest]
    · by_cases hc : c.isEmpty = true
      · simp [hc, hrest]
      · simp only [hc, Bool.false_eq_true, if_false]
        split
        · simp [hrest]
        · simp [hrest]
  · intro query context
    have hvar : generate_query_variations (fun _ => .error ()) query 3 = [query] := rfl
    unfold enhance_query
    rcases context with _ | c
    · simp [hvar]
    · by_cases hc : c.isEmpty = true
      · simp [hvar, hc]
      · have hca : generate_context_aware_query (fun _ => .error ()) query c = query := rfl
        simp [hvar, hc, hca]

end Studynet

namespace Studynet

/-! ## Orchestrator response assembly (`src/api/agent.py`) -/

/-- `RAGAgent.process_query` confidence on the success path:
`min(max(per-document retrieval score with a 0.5 default) if kb_docs else
0.5, 1.0)`.  A document without a `retrieval_score` key is `none`. -/
def rag_confidence (kbDocScores : List (Option ℚ)) : ℚ :=
  min
    (match kbDocScores.map (fun s => s.getD (1/2)) with
      | [] => 1/2
      | x :: xs => xs.foldl max x)
    1

/-- The tool names routed to a `sql` source entry by the orchestrator. -/
def sqlToolNames : List PyStr :=
  [toCodes "sql_query", toCodes "get_sql_schema", toCodes "table_preview"]

/-- One intermediate step of the agent executor: the tool invoked and its
observation text. -/
structure ToolStep where
  tool : PyStr
  observation : PyStr
deriving DecidableEq, Repr

/-- A labeled source entry of the final response. -/
structure SourceEntry where
  srcType : PyStr
  tool : PyStr
  content : PyStr
deriving DecidableEq, Repr

/-- The source-extraction loop of `MasterOrchestrator.process_query`:
`sql_query`/`get_sql_schema`/`table_preview` steps become `sql` sources,
`rag_search` steps become `rag` sources, anything else contributes no
source. -/
def orch_sources (steps : List ToolStep) : List SourceEntry :=
  steps.filterMap (fun s =>
    if sqlToolNames.contains s.tool then
      some ⟨toCodes "sql", s.tool, s.observation.take 200⟩
    else if s.tool == toCodes "rag_search" then
      some ⟨toCodes "rag", s.tool, s.observation.take 200⟩
    else none)

/-- The response metadata assembled by `MasterOrchestrator.process_query`
on its success path (answer text and memory bookkeeping omitted): tools
used, the sql/rag usage flags, `hybrid_mode`, and the confidence score
`0.9 if sources else 0.5`. -/
structure OrchResponse where
  sources : List SourceEntry
  toolsUsed : List PyStr
  sqlUsed : Bool
  ragUsed : Bool
  hybridMode : Bool
  confidence : ℚ
deriving DecidableEq, Repr

def build_orch_response (steps : List ToolStep) : OrchResponse :=
  let sources := orch_sources steps
  let sqlUsed := steps.any (fun s => sqlToolNames.contains s.tool)
  let ragUsed := steps.any (fun s => s.tool == toCodes "rag_search")
  ⟨sources, steps.map (·.tool), sqlUsed, ragUsed, sqlUsed && ragUsed,
    if sources.isEmpty then 1/2 else 9/10⟩

/-- C9 counterexample: a response whose only contributing source is a
`rag_search` observation — for which no retrieval score is available, so
the claim demands the mid-value 0.5 — receives confidence 0.9 from the
orchestrator. -/
theorem orch_confidence_counterexample :
    (build_orch_response [⟨toCodes "rag_search", toCodes "visa guide text"⟩]).confidence
        = 9/10 ∧
      ((9 : ℚ)/10) ≠ 1/2 := by
  constructor
  · rfl
  · norm_num

/-- C9 amended: the `MasterOrchestrator` confidence ignores retrieval
scores entirely — it is 0.5 exactly when no sql/rag source contributed
and 0.9 otherwise, so it always lies in [0,1]; the legacy `RAGAgent`
confidence is the per-document maximum retrieval score (0.5 default per
document, 0.5 with no documents) clamped above — never below — to 1. -/
theorem orchestrator_confidence_values :
    (∀ steps : List ToolStep,
      ((build_orch_response steps).confidence = 1/2 ↔ orch_sources steps = []) ∧
        ((build_orch_response steps).confidence = 9/10 ↔ orch_sources steps ≠ []) ∧
        0 ≤ (build_orch_response steps).confidence ∧
        (build_orch_response steps).confidence ≤ 1) ∧
    rag_confidence [] = 1/2 ∧
    (∀ (s : ℚ) (rest : List (Option ℚ)),
      rag_confidence (some s :: rest) =
        min ((rest.map (fun o => o.getD (1/2))).foldl max s) 1) ∧
    (∀ kb : List (Option ℚ), rag_confidence kb ≤ 1) ∧
    rag_confidence [some (3/2)] = 1 ∧
    rag_confidence [some (-2)] = -2 := by
  refine ⟨?_, by norm_num [rag_confidence], ?_, ?_, by norm_num [rag_confidence], ?_⟩
  · intro steps
    unfold build_orch_response
    by_cases h : (orch_sources steps).isEmpty = true
    · rw [List.isEmpty_iff] at h
      simp only [h, List.isEmpty_nil, if_true]
      refine ⟨by simp, ?_, by norm_num, by norm_num⟩
      constructor
      · intro he; exact absurd he (by norm_num)
      · intro hne; exact absurd rfl hne
    · rw [Bool.not_eq_true] at h
      have h2 : orch_sources steps ≠ [] := by
        intro e
        rw [e] at h
        simp at h
      simp only [h, Bool.false_eq_true, if_false]
      norm_num [h2]
  · intro s rest
    simp [rag_confidence]
  · intro kb
    unfold rag_confidence
    exact min_le_right _ _
  · norm_num [rag_confidence]
    
end Studynet
